import Mathlib

/-!
Verification development for the manual-acquisition pipeline of the
toyota_agent repository (src/manuals_scraper.py, src/agent_core.py).

All definitions are shallow embeddings translated from the Python source.
JSON values carried by product / publication dictionaries are modelled by
an explicit Json type; Python ints and digit-strings are modelled by Nat /
digit Strings (the source only ever inspects them through str(...).isdigit()
and int(...)); Python character classes (isalnum, isdigit, lower, whitespace)
are modelled by their ASCII fragments, which is the fragment exercised by
the data of this pipeline.
-/

/- ------------------------------------------------------------------
   Basic Python-flavoured string helpers
------------------------------------------------------------------ -/

/-- Numeric value of a list of decimal digit characters (most significant
first), as computed by the Python int() builtin on a digit string. -/
def digitsVal (cs : List Char) : Nat :=
  cs.foldl (fun n c => n * 10 + (c.toNat - 48)) 0

/-- Python str.isdigit() on the ASCII fragment: nonempty and all decimal
digits. -/
def isDigitStr (s : String) : Bool :=
  !s.data.isEmpty && s.data.all Char.isDigit

/-- Characters removed from both ends, as done by Python str.strip(chars):
drop from the front and from the back while the predicate holds. -/
def stripEnds (f : Char → Bool) (l : List Char) : List Char :=
  ((l.dropWhile f).reverse.dropWhile f).reverse

/-- Text before the first 'T', as computed by s.split("T")[0]. -/
def beforeT (s : String) : String :=
  ⟨s.data.takeWhile (fun c => c ≠ 'T')⟩

/-- Python str.lower() on the ASCII fragment. -/
def pyLowerAscii (s : String) : String :=
  ⟨s.data.map Char.toLower⟩

/-- Python str.startswith(pat), on the underlying character lists. -/
def startsWithList : List Char → List Char → Bool
  | _, [] => true
  | [], _ :: _ => false
  | a :: as, b :: bs => a = b && startsWithList as bs

/- ------------------------------------------------------------------
   Product records and the merge (deduplication) logic
   (src/manuals_scraper.py lines 47-74)
------------------------------------------------------------------ -/

/-- A vendor product variant, as consumed by the scraper.  Fields absent
from the JSON object are None in Python and none here; the year field is
kept as its str(...) rendering since the source only inspects it through
str(y).isdigit() and int(y). -/
structure Product where
  brand : Option String
  model : Option String
  modelType : Option String
  ngtdModelId : Option String
  year : Option String
  lineOffDate : Option String
deriving DecidableEq, Repr

/-- Identity key used for grouping: (brand, model, modelType, ngtdModelId). -/
abbrev Key := Option String × Option String × Option String × Option String

def keyOf (p : Product) : Key :=
  (p.brand, p.model, p.modelType, p.ngtdModelId)

/-- A Python datetime.date value (year, month, day); dates compare
lexicographically by components. -/
structure PyDate where
  y : Nat
  m : Nat
  d : Nat
deriving DecidableEq, Repr

/-- Python date.min = 0001-01-01. -/
def PyDate.min : PyDate := ⟨1, 1, 1⟩

def isLeapYear (y : Nat) : Bool :=
  y % 4 == 0 && (y % 100 != 0 || y % 400 == 0)

def daysInMonth (y m : Nat) : Nat :=
  if m = 2 then (if isLeapYear y then 29 else 28)
  else if m = 4 ∨ m = 6 ∨ m = 9 ∨ m = 11 then 30
  else 31

/-- The date-only grammar of datetime.fromisoformat: exactly YYYY-MM-DD
with a valid calendar date (year 0001-9999); anything else is a parse
failure (ValueError in the source). -/
def parseYMD : List Char → Option PyDate
  | [y1, y2, y3, y4, '-', m1, m2, '-', d1, d2] =>
    if ([y1, y2, y3, y4, m1, m2, d1, d2].all Char.isDigit) then
      let y := digitsVal [y1, y2, y3, y4]
      let m := digitsVal [m1, m2]
      let d := digitsVal [d1, d2]
      if 1 ≤ y ∧ 1 ≤ m ∧ m ≤ 12 ∧ 1 ≤ d ∧ d ≤ daysInMonth y m then
        some ⟨y, m, d⟩
      else none
    else none
  | _ => none

/-- Embeds _parse_iso_date: a missing or empty string gives date.min, else
the text before 'T' is parsed as an ISO date, any failure giving date.min. -/
def parse_iso_date : Option String → PyDate
  | none => PyDate.min
  | some s => if s = "" then PyDate.min else (parseYMD (beforeT s).data).getD PyDate.min

/-- Year as ranked by _rank_for_merge: int(y) when str(y).isdigit(), else -1. -/
def pyYearInt (y : Option String) : Int :=
  match y with
  | some s => if isDigitStr s then (digitsVal s.data : Int) else -1
  | none => -1

/-- Embeds _rank_for_merge: the (line-off date, year) pair. -/
def rank_for_merge (p : Product) : PyDate × Int :=
  (parse_iso_date p.lineOffDate, pyYearInt p.year)

/-- Strict lexicographic comparison of Python dates. -/
def PyDate.ltB (a b : PyDate) : Bool :=
  a.y < b.y || (a.y == b.y && (a.m < b.m || (a.m == b.m && a.d < b.d)))

/-- Strict lexicographic comparison of (date, year) rank pairs, as Python
compares the tuples returned by _rank_for_merge. -/
def rankLtB (a b : PyDate × Int) : Bool :=
  PyDate.ltB a.1 b.1 || (a.1 == b.1 && a.2 < b.2)

/-- Python max(best :: xs, key := f): scan left to right, replacing the
current best only on a strictly greater key, so the first maximal element
is returned. -/
def pyMaxBy {α β : Type} (lt : β → β → Bool) (f : α → β) : α → List α → α
  | best, [] => best
  | best, x :: xs => pyMaxBy lt f (if lt (f best) (f x) then x else best) xs

/-- First-occurrence deduplication of a list of keys; this is the iteration
order of a Python dict built by inserting the keys in list order. -/
def dedupAux {α : Type} [DecidableEq α] (seen : List α) : List α → List α
  | [] => []
  | a :: l => if a ∈ seen then dedupAux seen l else a :: dedupAux (a :: seen) l

def dedupF {α : Type} [DecidableEq α] (l : List α) : List α :=
  dedupAux [] l

/-- The group of products sharing identity key k, in input order (this is
the list defaultdict accumulates under k). -/
def groupOf (L : List Product) (k : Key) : List Product :=
  L.filter (fun p => keyOf p = k)

/-- Representative of the group under key k: max(items, key := _rank_for_merge). -/
def repOf (L : List Product) (k : Key) : Option Product :=
  match groupOf L k with
  | [] => none
  | h :: t => some (pyMaxBy rankLtB rank_for_merge h t)

/-- Embeds merge_products_latest: group by identity key (dict keys in
first-occurrence order) and keep, per group, the max under the
(line-off date, year) rank. -/
def merge_products_latest (L : List Product) : List Product :=
  (dedupF (L.map keyOf)).filterMap (repOf L)

/- ------------------------------------------------------------------
   Year-range resolution (src/manuals_scraper.py lines 78-98)
------------------------------------------------------------------ -/

/-- Year as collected by years_for_same_product / year_from_prod:
int(y) when y is not None and str(y).isdigit(), else skipped. -/
def pyParseYearNat (y : Option String) : Option Nat :=
  match y with
  | some s => if isDigitStr s then some (digitsVal s.data) else none
  | none => none

/-- Insert a year into a strictly descending duplicate-free list, keeping
it strictly descending and duplicate-free. -/
def insDesc (n : Nat) : List Nat → List Nat
  | [] => [n]
  | m :: l => if m < n then n :: m :: l else if n = m then m :: l else m :: insDesc n l

/-- The value of Python sorted(set(years), reverse := True): the distinct
elements in strictly descending order (that sorted-distinct list is unique,
so any correct construction of it coincides with the one of the source). -/
def sortDescDedup (l : List Nat) : List Nat :=
  l.foldr insDesc []

/-- The numeric years of the products sharing the identity key of prod, in
input order (the list the loop of the source appends to). -/
def siblingNumericYears (prod : Product) (L : List Product) : List Nat :=
  L.filterMap (fun p => if keyOf p = keyOf prod then pyParseYearNat p.year else none)

/-- Embeds years_for_same_product: distinct sibling years sorted descending,
capped, rendered back to strings. -/
def years_for_same_product (prod : Product) (L : List Product) (cap : Nat) : List String :=
  ((sortDescDedup (siblingNumericYears prod L)).take cap).map (fun n => toString n)

/-- Embeds the year_from_prod inner function of pick_years_for_product. -/
def year_from_prod (p : Product) : List String :=
  match pyParseYearNat p.year with
  | some n => [toString n]
  | none => []

/-- Module-level configuration constant of the scraper. -/
def USE_SIBLING_YEARS : Bool := true

/-- Embeds pick_years_for_product (cap 12 is the default of
years_for_same_product, which the source calls without overriding it). -/
def pick_years_for_product (prod : Product) (L : List Product) : List String :=
  if USE_SIBLING_YEARS then
    let ys := years_for_same_product prod L 12
    if ys.isEmpty then year_from_prod prod else ys
  else year_from_prod prod

/- ------------------------------------------------------------------
   JSON values and the publications page parser
   (src/manuals_scraper.py lines 125-154)
------------------------------------------------------------------ -/

/-- Untyped JSON values as walked by collect_publications.  Objects are
association lists in key order (Python dicts preserve insertion order and
have unique keys; lookups here take the first binding). -/
inductive Json where
  | null : Json
  | bool : Bool → Json
  | num : Int → Json
  | str : String → Json
  | arr : List Json → Json
  | obj : List (String × Json) → Json

mutual

/-- Structural equality of JSON values (Python == on the values this
pipeline handles). -/
def Json.beq : Json → Json → Bool
  | .null, .null => true
  | .bool a, .bool b => a == b
  | .num a, .num b => a == b
  | .str a, .str b => a == b
  | .arr xs, .arr ys => Json.beqArr xs ys
  | .obj xs, .obj ys => Json.beqObj xs ys
  | _, _ => false

def Json.beqArr : List Json → List Json → Bool
  | [], [] => true
  | x :: xs, y :: ys => Json.beq x y && Json.beqArr xs ys
  | _, _ => false

def Json.beqObj : List (String × Json) → List (String × Json) → Bool
  | [], [] => true
  | x :: xs, y :: ys => x.1 == y.1 && Json.beq x.2 y.2 && Json.beqObj xs ys
  | _, _ => false

end

mutual

theorem Json.eq_of_beq : ∀ a b : Json, Json.beq a b = true → a = b
  | .null, .null, _ => rfl
  | .bool x, .bool y, h => by simp [Json.beq] at h; rw [h]
  | .num x, .num y, h => by simp [Json.beq] at h; rw [h]
  | .str x, .str y, h => by simp [Json.beq] at h; rw [h]
  | .arr xs, .arr ys, h => by
      rw [Json.eqArr_of_beq xs ys (by simpa [Json.beq] using h)]
  | .obj xs, .obj ys, h => by
      rw [Json.eqObj_of_beq xs ys (by simpa [Json.beq] using h)]
  | .null, .bool _, h | .null, .num _, h | .null, .str _, h | .null, .arr _, h | .null, .obj _, h
  | .bool _, .null, h | .bool _, .num _, h | .bool _, .str _, h | .bool _, .arr _, h | .bool _, .obj _, h
  | .num _, .null, h | .num _, .bool _, h | .num _, .str _, h | .num _, .arr _, h | .num _, .obj _, h
  | .str _, .null, h | .str _, .bool _, h | .str _, .num _, h | .str _, .arr _, h | .str _, .obj _, h
  | .arr _, .null, h | .arr _, .bool _, h | .arr _, .num _, h | .arr _, .str _, h | .arr _, .obj _, h
  | .obj _, .null, h | .obj _, .bool _, h | .obj _, .num _, h | .obj _, .str _, h | .obj _, .arr _, h =>
      by simp [Json.beq] at h

theorem Json.eqArr_of_beq : ∀ xs ys : List Json, Json.beqArr xs ys = true → xs = ys
  | [], [], _ => rfl
  | x :: xs, y :: ys, h => by
      have h1 : Json.beq x y = true := by
        have := h; simp [Json.beqArr] at this; exact this.1
      have h2 : Json.beqArr xs ys = true := by
        have := h; simp [Json.beqArr] at this; exact this.2
      rw [Json.eq_of_beq x y h1, Json.eqArr_of_beq xs ys h2]
  | [], _ :: _, h | _ :: _, [], h => by simp [Json.beqArr] at h

theorem Json.eqObj_of_beq : ∀ xs ys : List (String × Json), Json.beqObj xs ys = true → xs = ys
  | [], [], _ => rfl
  | x :: xs, y :: ys, h => by
      have h' := h
      simp [Json.beqObj] at h'
      have := Json.eq_of_beq x.2 y.2 h'.1.2
      have h2 := Json.eqObj_of_beq xs ys h'.2
      cases x; cases y
      simp_all
  | [], _ :: _, h | _ :: _, [], h => by simp [Json.beqObj] at h

end

mutual

theorem Json.beq_refl : ∀ a : Json, Json.beq a a = true
  | .null => rfl
  | .bool x => by simp [Json.beq]
  | .num x => by simp [Json.beq]
  | .str x => by simp [Json.beq]
  | .arr xs => by simpa [Json.beq] using Json.beqArr_refl xs
  | .obj xs => by simpa [Json.beq] using Json.beqObj_refl xs

theorem Json.beqArr_refl : ∀ xs : List Json, Json.beqArr xs xs = true
  | [] => rfl
  | x :: xs => by
      simp [Json.beqArr]
      exact ⟨Json.beq_refl x, Json.beqArr_refl xs⟩

theorem Json.beqObj_refl : ∀ xs : List (String × Json), Json.beqObj xs xs = true
  | [] => rfl
  | x :: xs => by
      simp [Json.beqObj]
      exact ⟨Json.beq_refl x.2, Json.beqObj_refl xs⟩

end

instance : DecidableEq Json := fun a b =>
  if h : Json.beq a b = true then .isTrue (Json.eq_of_beq a b h)
  else .isFalse (fun he => h (he ▸ Json.beq_refl a))

/-- Python truthiness of a JSON value. -/
def jTruthy : Json → Bool
  | .null => false
  | .bool b => b
  | .num n => n ≠ 0
  | .str s => s ≠ ""
  | .arr xs => !xs.isEmpty
  | .obj kvs => !kvs.isEmpty

/-- dict.get(k): the value bound to k, if the key is present. -/
def jsonGet (kvs : List (String × Json)) (k : String) : Option Json :=
  (kvs.find? (fun kv => kv.1 = k)).map (fun kv => kv.2)

/-- dict.get(k) as a value: None (null) when the key is absent. -/
def getJ (kvs : List (String × Json)) (k : String) : Json :=
  (jsonGet kvs k).getD Json.null

/-- Python `a or b`: a if truthy, else b. -/
def jOr (a b : Json) : Json :=
  if jTruthy a then a else b

/-- True when the JSON value is a string or falsy — the values on which the
(x or "") and iteration-over-characters idioms of the source are defined without
raising TypeError. -/
def strOrFalsyB : Json → Bool
  | .str _ => true
  | j => !jTruthy j

/-- The normalized record collect_publications appends for a JSON object
containing a partNumber key (first-match-wins field aliasing via `or`). -/
structure PubRecord where
  partNumber : Json
  publicationType : Json
  language : Json
  title : Json
  lineOffDate : Json
  modelType : Json
  ngtdModelId : Json
  year : Json
deriving DecidableEq

def hasPartNumberKey (kvs : List (String × Json)) : Bool :=
  kvs.any (fun kv => kv.1 = "partNumber")

def extractRecord (kvs : List (String × Json)) : PubRecord :=
  { partNumber := getJ kvs "partNumber"
    publicationType := jOr (getJ kvs "publicationType") (jOr (getJ kvs "type") (getJ kvs "category"))
    language := jOr (getJ kvs "language") (jOr (getJ kvs "lang") (getJ kvs "locale"))
    title := jOr (getJ kvs "title") (jOr (getJ kvs "name") (getJ kvs "label"))
    lineOffDate := jOr (getJ kvs "lineOffDate") (jOr (getJ kvs "effectiveDate") (Json.str ""))
    modelType := jOr (getJ kvs "modelType") (jOr (getJ kvs "model") (Json.str ""))
    ngtdModelId := jOr (getJ kvs "ngtdModelId") (jOr (getJ kvs "modelId") (Json.str ""))
    year := getJ kvs "year" }

mutual

/-- The recursive visit of collect_publications, in pre-order: a dict
carrying a partNumber key contributes a record before its values are
visited; lists are visited element-wise; scalars contribute nothing. -/
def walkRecords : Json → List PubRecord
  | .obj kvs => (if hasPartNumberKey kvs then [extractRecord kvs] else []) ++ walkKVs kvs
  | .arr xs => walkArr xs
  | _ => []

def walkKVs : List (String × Json) → List PubRecord
  | [] => []
  | kv :: rest => walkRecords kv.2 ++ walkKVs rest

def walkArr : List Json → List PubRecord
  | [] => []
  | v :: rest => walkRecords v ++ walkArr rest

end

/-- Python dict insert-or-update: an existing key keeps its position and
gets the new value, a new key is appended.  (Keys are JSON values; in the
source an unhashable key — a list or dict part number — would raise
TypeError, a case outside the data this parser targets.) -/
def dictUpsert (m : List (Json × PubRecord)) (k : Json) (v : PubRecord) :
    List (Json × PubRecord) :=
  if m.any (fun kv => kv.1 = k) then
    m.map (fun kv => if kv.1 = k then (k, v) else kv)
  else m ++ [(k, v)]

/-- One step of the uniq-building loop: records with a falsy partNumber are
skipped, others are upserted under their partNumber. -/
def dedupStep (m : List (Json × PubRecord)) (x : PubRecord) : List (Json × PubRecord) :=
  if jTruthy x.partNumber then dictUpsert m x.partNumber x else m

/-- Embeds collect_publications: walk the payload, then deduplicate the
found records by part number, last occurrence winning, returning the
values of the dict. -/
def collect_publications (j : Json) : List PubRecord :=
  ((walkRecords j).foldl dedupStep []).map Prod.snd

/- ------------------------------------------------------------------
   Owners-Manual (OM) selection (src/manuals_scraper.py lines 156-167)
------------------------------------------------------------------ -/

/-- Python == "OM" on a JSON value: only the string "OM" compares equal. -/
def isOM : Json → Bool
  | .str s => s = "OM"
  | _ => false

/-- isinstance(language, str) and language.lower().startswith("en"). -/
def langIsEn : Json → Bool
  | .str s => startsWithList (pyLowerAscii s).data ['e', 'n']
  | _ => false

/-- The candidate filter of pick_latest_en_om. -/
def enOmFilterB (p : PubRecord) : Bool :=
  isOM p.publicationType && langIsEn p.language

/-- norm_date: (d or "").split("T")[0].  A truthy non-string line-off date
would raise TypeError in the source; such values are excluded by the
strOrFalsyB hypotheses of the theorems below. -/
def normDateJ : Json → String
  | .str s => beforeT s
  | _ => ""

/-- Strict comparison of characters then lists, code point by code point —
the string ordering of Python. -/
def clLtB : List Char → List Char → Bool
  | [], [] => false
  | [], _ :: _ => true
  | _ :: _, [] => false
  | a :: as, b :: bs => a.toNat < b.toNat || (a.toNat == b.toNat && clLtB as bs)

def strLtB (a b : String) : Bool :=
  clLtB a.data b.data

/-- Embeds pick_latest_en_om.  The source sorts the candidates by
norm_date descending with the stable Python sort and takes element 0; the
head of a stable descending sort is the first element attaining the
maximal key, which is what the pyMaxBy scan returns. -/
def pick_latest_en_om (pubs : List PubRecord) : Option PubRecord :=
  match pubs.filter enOmFilterB with
  | [] => none
  | h :: t => some (pyMaxBy strLtB (fun p => normDateJ p.lineOffDate) h t)

/- ------------------------------------------------------------------
   PDF link resolution (src/manuals_scraper.py lines 169-193)
------------------------------------------------------------------ -/

/-- The truthiness test gating the pdfLink request:
not (pn and model_type and line_off), where line_off is the date-truncated
line-off date string. -/
def pdf_link_required (pub : PubRecord) : Bool :=
  jTruthy pub.partNumber && jTruthy pub.modelType && (normDateJ pub.lineOffDate ≠ "")

/-- The value the source returns from data.get("url"): the url field of
the response body, with an absent key giving Python None (by getD null)
and a null value being indistinguishable from an absent key. -/
def urlField (body : List (String × Json)) : Option Json :=
  match getJ body "url" with
  | Json.null => none
  | v => some v

/-- Embeds get_pdf_link as a function of the publication and of the
response of the endpoint (status code and parsed JSON body, the only parts of
the response the source consumes).  Except.error models an exception
escaping from raise_for_status, which in the requests library fires
exactly for status codes 400-599.  When the required fields are missing
the function returns before the request is issued, which is why the
result then does not depend on the response arguments. -/
def get_pdf_link (pub : PubRecord) (status : Nat) (body : List (String × Json)) :
    Except Unit (Option Json) :=
  if !pdf_link_required pub then Except.ok none
  else if status = 400 ∨ status = 404 ∨ status = 500 then Except.ok none
  else if 400 ≤ status ∧ status ≤ 599 then Except.error ()
  else Except.ok (urlField body)

/- ------------------------------------------------------------------
   File naming and download (src/manuals_scraper.py lines 197-246)
------------------------------------------------------------------ -/

/-- Embeds safe_filename: keep alphanumerics and ".", "_", "-", space,
replacing every other character by an underscore; strip leading/trailing
underscores and spaces; truncate to 200 characters; an empty result
becomes the literal "manual". -/
def safe_filename (s : String) : String :=
  let keep : List Char := ['.', '_', '-', ' ']
  let cleaned := s.data.map (fun c => if c.isAlphanum || c ∈ keep then c else '_')
  let truncated := (stripEnds (fun c => c = '_' || c = ' ') cleaned).take 200
  if truncated.isEmpty then "manual" else ⟨truncated⟩

/-- Embeds make_named_pdf: keep the truthy components whose sanitization
is truthy (the second conjunct never fails since safe_filename never
returns an empty string), sanitize them, join with dots (falling back to
"manual" when nothing is left), replace spaces with underscores and
append ".pdf". -/
def make_named_pdf (brand model modelType : String) (year : Option String)
    (partNumber : String) : String :=
  let segments : List String := [brand, model, modelType, year.getD "", partNumber]
  let segs := (segments.filter (fun x => x ≠ "" && safe_filename x ≠ "")).map safe_filename
  let base := if segs.isEmpty then "manual" else String.intercalate "." segs
  ⟨base.data.map (fun c => if c = ' ' then '_' else c)⟩ ++ ".pdf"

/-- Python str() of a JSON value, as consumed by str(candidate).isdigit()
in preferred_year.  The stand-ins for lists and dicts are never
all-digits, which is the only property the source reads off them. -/
def pyStr : Json → String
  | .null => "None"
  | .bool true => "True"
  | .bool false => "False"
  | .num n => toString n
  | .str s => s
  | .arr _ => "[list]"
  | .obj _ => "[dict]"

/-- int(candidate) when candidate is not None and str(candidate).isdigit(). -/
def jYearNat (j : Json) : Option Nat :=
  if j = Json.null then none
  else if isDigitStr (pyStr j) then some (digitsVal (pyStr j).data) else none

/-- Python `x or alt` for a JSON field expected to be a string: the string
itself when truthy, alt when falsy.  A truthy non-string here would make
the source raise TypeError further down (iterating the characters of an int);
the strOrFalsyB hypotheses of the download theorem exclude that case. -/
def jStrOr (j : Json) (alt : String) : String :=
  match j with
  | .str s => if s = "" then alt else s
  | _ => alt

/-- Python `x or alt` for an optional string. -/
def optOr (a : Option String) (alt : String) : String :=
  match a with
  | some s => if s = "" then alt else s
  | none => alt

/-- Embeds preferred_year: the year of the publication if numeric, else the
year of the product if numeric, else the first four characters of the line-off
date when they are digits, else None. -/
def preferred_year (pub : PubRecord) (prod : Product) : Option String :=
  match jYearNat pub.year with
  | some n => some (toString n)
  | none =>
    match pyParseYearNat prod.year with
    | some n => some (toString n)
    | none =>
      let lineOff := jStrOr pub.lineOffDate ""
      if lineOff.data.length ≥ 4 ∧ (lineOff.data.take 4).all Char.isDigit then
        some ⟨lineOff.data.take 4⟩
      else none

def OUT_DIR : String := "./manuals"

/-- The deterministic target path download_pdf computes before checking
existence: os.path.join(OUT_DIR, make_named_pdf(...)) over the components
the source assembles from the product and the publication. -/
def download_target (prod : Product) (pub : PubRecord) : String :=
  let brand := optOr prod.brand ""
  let model := optOr prod.model ""
  let modelType := jStrOr pub.modelType (optOr prod.modelType (optOr prod.model ""))
  let year := preferred_year pub prod
  let pn := jStrOr pub.partNumber ""
  OUT_DIR ++ "/" ++ make_named_pdf brand model modelType year pn

/-- Embeds download_pdf against a filesystem modelled as the list of
existing paths.  Returns (returned path, filesystem afterwards, number of
network transfers performed): when the target path already exists the
source returns it without touching the network, otherwise it streams the
body to the new path (the bytes themselves are not modelled; the
Content-Type check only prints a warning). -/
def download_pdf (fs : List String) (url : String) (prod : Product) (pub : PubRecord) :
    String × List String × Nat :=
  let path := download_target prod pub
  if path ∈ fs then (path, fs, 0) else (path, path :: fs, 1)

/- ------------------------------------------------------------------
   SQL gating of the tabular-query tool (src/agent_core.py lines 38-62)
------------------------------------------------------------------ -/

/-- Python whitespace stripped by str.strip() (ASCII fragment). -/
def isPyWs (c : Char) : Bool :=
  c = ' ' || c = '\t' || c = '\n' || c = '\r' || c = Char.ofNat 11 || c = Char.ofNat 12

def pyStripWs (s : String) : String :=
  ⟨stripEnds isPyWs s.data⟩

/-- Python str.rstrip(";"): drop every trailing semicolon. -/
def rstripSemis (s : String) : String :=
  ⟨(s.data.reverse.dropWhile (fun c => c = ';')).reverse⟩

/-- Observable outcome of SqlSelectTool.forward: either an error string
returned without touching the database, or the execution of query q with
row limit lim against the SQLite connection. -/
inductive SqlOutcome where
  | err : String → SqlOutcome
  | executed : String → Int → SqlOutcome
deriving DecidableEq

/-- int(limit) if limit is an int (or a digit string, not modelled), else
100; a missing limit is None. -/
def pyIntOfLimit : Option Int → Int
  | some n => n
  | none => 100

/-- Embeds SqlSelectTool.forward up to the point where the query reaches
the database: a missing/blank query and a query that does not start with
"select" after strip()/rstrip(";")/lower() are rejected with the error
strings of the source, anything else is executed. -/
def sql_select_forward (query : Option String) (limit : Option Int) : SqlOutcome :=
  match query with
  | none => SqlOutcome.err "Error: \x27query\x27 is required."
  | some s =>
    if s = "" || pyStripWs s = "" then SqlOutcome.err "Error: \x27query\x27 is required."
    else
      let q := rstripSemis (pyStripWs s)
      if !(startsWithList (pyLowerAscii q).data "select".data) then
        SqlOutcome.err "Error: only SELECT queries are allowed."
      else SqlOutcome.executed q (pyIntOfLimit limit)

/- ------------------------------------------------------------------
   Claim-side naming algorithm (for claim C2) and its amended form
------------------------------------------------------------------ -/

/-- The per-component sanitization both the claim and the source describe:
replace every character that is neither alphanumeric nor one of
".", "_", "-", space by an underscore, strip leading/trailing underscores
and spaces, truncate to 200 characters.  Unlike safe_filename it has no
fallback, so it can return an empty string. -/
def claimSanitizeComponent (s : String) : String :=
  let keep : List Char := ['.', '_', '-', ' ']
  ⟨(stripEnds (fun c => c = '_' || c = ' ')
      (s.data.map (fun c => if c.isAlphanum || c ∈ keep then c else '_'))).take 200⟩

/-- Modelled from the words of claim C2: sanitize each of the five
components independently, drop any component that sanitizes to empty,
join the survivors with dots, replace spaces with underscores, append
".pdf", and produce the literal "manual.pdf" when every component is
empty. -/
def claim_named_pdf (brand model modelType : String) (year : Option String)
    (partNumber : String) : String :=
  let comps := ([brand, model, modelType, year.getD "", partNumber].map
      claimSanitizeComponent).filter (fun x => x ≠ "")
  if comps.isEmpty then "manual.pdf"
  else ⟨(String.intercalate "." comps).data.map (fun c => if c = ' ' then '_' else c)⟩ ++ ".pdf"

/-- Modelled from the amended claim: a component that is empty (or a
missing year) is dropped before sanitization, and a surviving component
whose sanitization comes out empty contributes the literal "manual"
instead of being dropped; the rest is as in claim C2. -/
def amendedSanitize (s : String) : String :=
  let t := claimSanitizeComponent s
  if t = "" then "manual" else t

def amended_named_pdf (brand model modelType : String) (year : Option String)
    (partNumber : String) : String :=
  let comps := ([brand, model, modelType, year.getD "", partNumber].filter
      (fun x => x ≠ "")).map amendedSanitize
  if comps.isEmpty then "manual.pdf"
  else ⟨(String.intercalate "." comps).data.map (fun c => if c = ' ' then '_' else c)⟩ ++ ".pdf"

/- ------------------------------------------------------------------
   Concrete data used by the witness theorems
------------------------------------------------------------------ -/

/-- Example products: one identity group with line-off dates
2019-01-01, 2021-06-15 and missing, and years 2019, 2021, 2023. -/
def prodA : Product :=
  ⟨some "Toyota", some "RAV4", some "XA50", some "m1", some "2019", some "2019-01-01T00:00:00"⟩

def prodB : Product :=
  ⟨some "Toyota", some "RAV4", some "XA50", some "m1", some "2021", some "2021-06-15T00:00:00"⟩

def prodC : Product :=
  ⟨some "Toyota", some "RAV4", some "XA50", some "m1", some "2023", none⟩

def prodsEx : List Product := [prodA, prodB, prodC]

/-- Example publications: two English Owners Manuals (OM) dated 2020-01-01 and
2022-03-01, and a French service manual. -/
def pubOM2020 : PubRecord :=
  ⟨.str "P1", .str "OM", .str "en-GB", .null, .str "2020-01-01T00:00:00", .str "", .str "", .null⟩

def pubOM2022 : PubRecord :=
  ⟨.str "P2", .str "OM", .str "en-GB", .null, .str "2022-03-01T00:00:00", .str "", .str "", .null⟩

def pubSMfr : PubRecord :=
  ⟨.str "P3", .str "SM", .str "fr", .null, .str "2021-01-01", .str "", .str "", .null⟩

def pubsEx : List PubRecord := [pubOM2020, pubSMfr, pubOM2022]

/-- Example hydration payload: two nodes with the same part number and
different titles, plus a node whose partNumber is the empty string. -/
def jEx : Json :=
  .obj [("a", .obj [("partNumber", .str "P1"), ("title", .str "T1")]),
        ("b", .obj [("partNumber", .str "P1"), ("title", .str "T2")]),
        ("c", .obj [("partNumber", .str "")])]

/-- The record the walk extracts from the second "P1" node of jEx. -/
def recT2 : PubRecord :=
  ⟨.str "P1", .null, .null, .str "T2", .str "", .str "", .str "", .null⟩

/-- The record the walk extracts from the falsy-partNumber node of jEx. -/
def recEmptyPn : PubRecord :=
  ⟨.str "", .null, .null, .null, .str "", .str "", .str "", .null⟩

/-- Example publication with all fields required by the pdfLink endpoint. -/
def pubEx7 : PubRecord :=
  ⟨.str "PN1", .str "OM", .str "en", .null, .str "2020-01-01T00:00:00", .str "MT", .str "", .null⟩

example : parse_iso_date (some "2021-06-15T00:00:00") = ⟨2021, 6, 15⟩ := by decide
example : parse_iso_date (some "2021-02-30") = PyDate.min := by decide
example : parse_iso_date none = PyDate.min := by decide
example : pyYearInt (some "2023") = 2023 := by decide
example : pyYearInt (some "20x3") = -1 := by decide
example : sortDescDedup [2019, 2021, 2019, 2023] = [2023, 2021, 2019] := by decide

/- ------------------------------------------------------------------
   Order lemmas for the merge rank and for string comparison
------------------------------------------------------------------ -/

theorem rankLtB_irrefl (a : PyDate × Int) : rankLtB a a = false := by
  obtain ⟨⟨a1, a2, a3⟩, a4⟩ := a
  simp [rankLtB, PyDate.ltB]

theorem rankLtB_trans {a b c : PyDate × Int} (hab : rankLtB a b = true)
    (hbc : rankLtB b c = true) : rankLtB a c = true := by
  obtain ⟨⟨a1, a2, a3⟩, a4⟩ := a
  obtain ⟨⟨b1, b2, b3⟩, b4⟩ := b
  obtain ⟨⟨c1, c2, c3⟩, c4⟩ := c
  simp only [rankLtB, PyDate.ltB, Bool.or_eq_true, Bool.and_eq_true, beq_iff_eq,
    decide_eq_true_eq, PyDate.mk.injEq] at hab hbc ⊢
  omega

theorem rankLtB_of_lt_of_not_lt {a b c : PyDate × Int} (hac : rankLtB a c = true)
    (hbc : rankLtB b c = false) : rankLtB a b = true := by
  obtain ⟨⟨a1, a2, a3⟩, a4⟩ := a
  obtain ⟨⟨b1, b2, b3⟩, b4⟩ := b
  obtain ⟨⟨c1, c2, c3⟩, c4⟩ := c
  simp only [rankLtB, PyDate.ltB, Bool.or_eq_true, Bool.and_eq_true, beq_iff_eq,
    decide_eq_true_eq, PyDate.mk.injEq, Bool.or_eq_false_iff, Bool.and_eq_false_iff,
    beq_eq_false_iff_ne, ne_eq, decide_eq_false_iff_not, not_lt, not_and] at hac hbc ⊢
  omega

theorem clLtB_irrefl (l : List Char) : clLtB l l = false := by
  induction l with
  | nil => rfl
  | cons a as ih => simp [clLtB, ih]

theorem clLtB_trans : ∀ {a b c : List Char}, clLtB a b = true → clLtB b c = true →
    clLtB a c = true
  | [], [], _, hab, _ => by simp [clLtB] at hab
  | [], _ :: _, [], _, hbc => by simp [clLtB] at hbc
  | [], _ :: _, _ :: _, _, _ => by simp [clLtB]
  | _ :: _, [], _, hab, _ => by simp [clLtB] at hab
  | _ :: _, _ :: _, [], _, hbc => by simp [clLtB] at hbc
  | a :: as, b :: bs, c :: cs, hab, hbc => by
      simp only [clLtB, Bool.or_eq_true, Bool.and_eq_true, beq_iff_eq,
        decide_eq_true_eq] at hab hbc ⊢
      rcases hab with h1 | ⟨h1, h1'⟩ <;> rcases hbc with h2 | ⟨h2, h2'⟩
      · exact Or.inl (by omega)
      · exact Or.inl (by omega)
      · exact Or.inl (by omega)
      · exact Or.inr ⟨by omega, clLtB_trans h1' h2'⟩

theorem clLtB_of_lt_of_not_lt : ∀ {a b c : List Char}, clLtB a c = true →
    clLtB b c = false → clLtB a b = true
  | [], _, [], hac, _ => by simp [clLtB] at hac
  | x :: xs, _, [], hac, _ => by simp [clLtB] at hac
  | [], [], c :: cs, _, hbc => by simp [clLtB] at hbc
  | [], b :: bs, c :: cs, _, _ => by simp [clLtB]
  | a :: as, [], c :: cs, _, hbc => by simp [clLtB] at hbc
  | a :: as, b :: bs, c :: cs, hac, hbc => by
      simp only [clLtB, Bool.or_eq_true, Bool.and_eq_true, beq_iff_eq,
        decide_eq_true_eq, Bool.or_eq_false_iff, Bool.and_eq_false_iff,
        beq_eq_false_iff_ne, ne_eq, decide_eq_false_iff_not, not_lt] at hac hbc ⊢
      obtain ⟨hcb, hrest⟩ := hbc
      rcases hac with h1 | ⟨h1, h1'⟩
      · exact Or.inl (by omega)
      · rcases Nat.eq_or_lt_of_le hcb with heq | hlt
        · rcases hrest with hne | hfalse
          · exact absurd heq.symm hne
          · exact Or.inr ⟨by omega, clLtB_of_lt_of_not_lt h1' hfalse⟩
        · exact Or.inl (by omega)

theorem strLtB_irrefl (s : String) : strLtB s s = false :=
  clLtB_irrefl s.data

theorem strLtB_trans {a b c : String} (hab : strLtB a b = true)
    (hbc : strLtB b c = true) : strLtB a c = true :=
  clLtB_trans hab hbc

theorem strLtB_of_lt_of_not_lt {a b c : String} (hac : strLtB a c = true)
    (hbc : strLtB b c = false) : strLtB a b = true :=
  clLtB_of_lt_of_not_lt hac hbc

/- ------------------------------------------------------------------
   Lemmas about the pyMaxBy scan
------------------------------------------------------------------ -/

theorem pyMaxBy_mem {α β : Type} (lt : β → β → Bool) (f : α → β) :
    ∀ (b : α) (xs : List α), pyMaxBy lt f b xs ∈ b :: xs := by
  intro b xs
  induction xs generalizing b with
  | nil => simp [pyMaxBy]
  | cons x xs ih =>
    have hstep : pyMaxBy lt f b (x :: xs) =
        pyMaxBy lt f (if lt (f b) (f x) then x else b) xs := rfl
    rw [hstep]
    by_cases h : lt (f b) (f x) = true
    · rw [if_pos h]
      rcases List.mem_cons.mp (ih x) with h' | h'
      · rw [h']
        exact List.mem_cons_of_mem _ (List.mem_cons_self _ _)
      · exact List.mem_cons_of_mem _ (List.mem_cons_of_mem _ h')
    · rw [if_neg h]
      rcases List.mem_cons.mp (ih b) with h' | h'
      · rw [h']
        exact List.mem_cons_self _ _
      · exact List.mem_cons_of_mem _ (List.mem_cons_of_mem _ h')

theorem pyMaxBy_not_lt {α β : Type} (lt : β → β → Bool) (f : α → β)
    (hirr : ∀ u, lt u u = false)
    (htr : ∀ {u v w}, lt u v = true → lt v w = true → lt u w = true)
    (hlt4 : ∀ {u v w}, lt u w = true → lt v w = false → lt u v = true) :
    ∀ (b : α) (xs : List α) (q : α), q ∈ b :: xs →
      lt (f (pyMaxBy lt f b xs)) (f q) = false := by
  intro b xs
  induction xs generalizing b with
  | nil =>
    intro q hq
    have hqb : q = b := by simpa using hq
    rw [hqb]
    exact hirr (f b)
  | cons x xs ih =>
    intro q hq
    have hstep : pyMaxBy lt f b (x :: xs) =
        pyMaxBy lt f (if lt (f b) (f x) then x else b) xs := rfl
    rw [hstep]
    by_cases h : lt (f b) (f x) = true
    · rw [if_pos h]
      rcases List.mem_cons.mp hq with hqb | hq'
      · cases hcase : lt (f (pyMaxBy lt f x xs)) (f q) with
        | false => rfl
        | true =>
          have h1 : lt (f (pyMaxBy lt f x xs)) (f b) = true := hqb ▸ hcase
          have h2 : lt (f (pyMaxBy lt f x xs)) (f x) = true := htr h1 h
          have h3 := ih x x (List.mem_cons_self _ _)
          rw [h3] at h2
          exact Bool.noConfusion h2
      · exact ih x q hq'
    · rw [if_neg h]
      rcases List.mem_cons.mp hq with hqb | hq'
      · rw [hqb]
        exact ih b b (List.mem_cons_self _ _)
      · rcases List.mem_cons.mp hq' with hqx | hq''
        · cases hcase : lt (f (pyMaxBy lt f b xs)) (f q) with
          | false => rfl
          | true =>
            have hb : lt (f b) (f q) = false := by
              rw [hqx]
              exact Bool.eq_false_iff.mpr h
            have h2 : lt (f (pyMaxBy lt f b xs)) (f b) = true := hlt4 hcase hb
            have h3 := ih b b (List.mem_cons_self _ _)
            rw [h3] at h2
            exact Bool.noConfusion h2
        · exact ih b q (List.mem_cons_of_mem _ hq'')

/- ------------------------------------------------------------------
   Lemmas about first-occurrence deduplication
------------------------------------------------------------------ -/

theorem mem_dedupAux {α : Type} [DecidableEq α] :
    ∀ (l : List α) (seen : List α) (a : α),
      a ∈ dedupAux seen l ↔ a ∈ l ∧ a ∉ seen := by
  intro l
  induction l with
  | nil => intro seen a; simp [dedupAux]
  | cons x xs ih =>
    intro seen a
    by_cases hx : x ∈ seen
    · rw [dedupAux, if_pos hx, ih seen a]
      constructor
      · rintro ⟨h1, h2⟩
        exact ⟨List.mem_cons_of_mem _ h1, h2⟩
      · rintro ⟨h1, h2⟩
        rcases List.mem_cons.mp h1 with rfl | h1'
        · exact absurd hx h2
        · exact ⟨h1', h2⟩
    · rw [dedupAux, if_neg hx]
      constructor
      · intro h
        rcases List.mem_cons.mp h with rfl | h'
        · exact ⟨List.mem_cons_self _ _, hx⟩
        · obtain ⟨h1, h2⟩ := (ih (x :: seen) a).mp h'
          exact ⟨List.mem_cons_of_mem _ h1, fun hc => h2 (List.mem_cons_of_mem _ hc)⟩
      · rintro ⟨h1, h2⟩
        by_cases hax : a = x
        · rw [hax]
          exact List.mem_cons_self _ _
        · rcases List.mem_cons.mp h1 with h' | h'
          · exact absurd h' hax
          · refine List.mem_cons_of_mem _ ((ih (x :: seen) a).mpr ⟨h', fun hc => ?_⟩)
            rcases List.mem_cons.mp hc with h'' | h''
            · exact hax h''
            · exact h2 h''

theorem mem_dedupF {α : Type} [DecidableEq α] (l : List α) (a : α) :
    a ∈ dedupF l ↔ a ∈ l := by
  rw [dedupF, mem_dedupAux]
  simp

theorem nodup_dedupAux {α : Type} [DecidableEq α] :
    ∀ (l : List α) (seen : List α), (dedupAux seen l).Nodup := by
  intro l
  induction l with
  | nil => intro seen; simp [dedupAux]
  | cons x xs ih =>
    intro seen
    by_cases hx : x ∈ seen
    · rw [dedupAux, if_pos hx]
      exact ih seen
    · rw [dedupAux, if_neg hx]
      refine List.nodup_cons.mpr ⟨fun hc => ?_, ih (x :: seen)⟩
      exact ((mem_dedupAux xs (x :: seen) x).mp hc).2 (List.mem_cons_self _ _)

theorem nodup_dedupF {α : Type} [DecidableEq α] (l : List α) : (dedupF l).Nodup :=
  nodup_dedupAux l []

theorem dedupAux_eq_self {α : Type} [DecidableEq α] :
    ∀ (l : List α) (seen : List α), l.Nodup → (∀ x ∈ l, x ∉ seen) →
      dedupAux seen l = l := by
  intro l
  induction l with
  | nil => intro seen _ _; rfl
  | cons x xs ih =>
    intro seen hnd hdisj
    rw [dedupAux, if_neg (hdisj x (List.mem_cons_self _ _))]
    congr 1
    refine ih (x :: seen) (List.nodup_cons.mp hnd).2 ?_
    intro y hy hc
    rcases List.mem_cons.mp hc with rfl | hc'
    · exact (List.nodup_cons.mp hnd).1 hy
    · exact hdisj y (List.mem_cons_of_mem _ hy) hc'

theorem dedupF_eq_self {α : Type} [DecidableEq α] (l : List α) (h : l.Nodup) :
    dedupF l = l :=
  dedupAux_eq_self l [] h (fun _ _ hc => by cases hc)

/- ------------------------------------------------------------------
   Lemmas about the merge
------------------------------------------------------------------ -/

theorem mem_groupOf {L : List Product} {k : Key} {p : Product} :
    p ∈ groupOf L k ↔ p ∈ L ∧ keyOf p = k := by
  simp [groupOf, List.mem_filter]

theorem groupOf_ne_nil {L : List Product} {k : Key} (h : k ∈ L.map keyOf) :
    groupOf L k ≠ [] := by
  rcases List.mem_map.mp h with ⟨p, hp, rfl⟩
  intro hnil
  have : p ∈ groupOf L (keyOf p) := mem_groupOf.mpr ⟨hp, rfl⟩
  rw [hnil] at this
  cases this

theorem repOf_spec {L : List Product} {k : Key} {p : Product}
    (h : repOf L k = some p) :
    p ∈ groupOf L k ∧
      ∀ q ∈ groupOf L k, rankLtB (rank_for_merge p) (rank_for_merge q) = false := by
  rw [repOf] at h
  rcases hg : groupOf L k with _ | ⟨g, gs⟩
  · rw [hg] at h
    exact nomatch h
  · rw [hg] at h
    injection h with h'
    constructor
    · rw [← h']
      exact pyMaxBy_mem rankLtB rank_for_merge g gs
    · intro q hq
      rw [← h']
      exact pyMaxBy_not_lt rankLtB rank_for_merge rankLtB_irrefl
        (fun hab hbc => rankLtB_trans hab hbc)
        (fun hab hbc => rankLtB_of_lt_of_not_lt hab hbc) g gs q hq

theorem repOf_isSome {L : List Product} {k : Key} (h : k ∈ L.map keyOf) :
    ∃ p, repOf L k = some p := by
  rcases hg : groupOf L k with _ | ⟨g, gs⟩
  · exact absurd hg (groupOf_ne_nil h)
  · exact ⟨pyMaxBy rankLtB rank_for_merge g gs, by rw [repOf, hg]⟩

theorem keyOf_repOf {L : List Product} {k : Key} {p : Product}
    (h : repOf L k = some p) : keyOf p = k :=
  (mem_groupOf.mp (repOf_spec h).1).2

theorem merge_mem_sub {L : List Product} {p : Product}
    (h : p ∈ merge_products_latest L) : p ∈ L := by
  rw [merge_products_latest] at h
  rcases List.mem_filterMap.mp h with ⟨k, _, hrep⟩
  exact (mem_groupOf.mp (repOf_spec hrep).1).1

theorem merge_map_keyOf (L : List Product) :
    (merge_products_latest L).map keyOf = dedupF (L.map keyOf) := by
  rw [merge_products_latest]
  have hmem : ∀ k ∈ dedupF (L.map keyOf), k ∈ L.map keyOf := by
    intro k hk
    exact (mem_dedupF _ _).mp hk
  revert hmem
  generalize dedupF (L.map keyOf) = ks
  intro hmem
  induction ks with
  | nil => rfl
  | cons k ks ih =>
    rcases repOf_isSome (hmem k (List.mem_cons_self _ _)) with ⟨p, hp⟩
    rw [List.filterMap_cons, hp, List.map_cons, keyOf_repOf hp]
    congr 1
    exact ih (fun k' hk' => hmem k' (List.mem_cons_of_mem _ hk'))

theorem filterMap_congr_mem {α β : Type} :
    ∀ (l : List α) (f g : α → Option β), (∀ x ∈ l, f x = g x) →
      l.filterMap f = l.filterMap g := by
  intro l
  induction l with
  | nil => intro f g _; rfl
  | cons x xs ih =>
    intro f g h
    rw [List.filterMap_cons, List.filterMap_cons, h x (List.mem_cons_self _ _),
      ih f g (fun y hy => h y (List.mem_cons_of_mem _ hy))]

theorem filter_congr_mem {α : Type} :
    ∀ (l : List α) (p q : α → Bool), (∀ x ∈ l, p x = q x) →
      l.filter p = l.filter q := by
  intro l
  induction l with
  | nil => intro p q _; rfl
  | cons x xs ih =>
    intro p q h
    rw [List.filter_cons, List.filter_cons, h x (List.mem_cons_self _ _),
      ih p q (fun y hy => h y (List.mem_cons_of_mem _ hy))]

theorem map_congr_mem {α β : Type} :
    ∀ (l : List α) (f g : α → β), (∀ x ∈ l, f x = g x) →
      l.map f = l.map g := by
  intro l
  induction l with
  | nil => intro f g _; rfl
  | cons x xs ih =>
    intro f g h
    rw [List.map_cons, List.map_cons, h x (List.mem_cons_self _ _),
      ih f g (fun y hy => h y (List.mem_cons_of_mem _ hy))]

theorem filterMap_repOf_self :
    ∀ (M : List Product), (M.map keyOf).Nodup →
      (M.map keyOf).filterMap (repOf M) = M := by
  intro M
  induction M with
  | nil => intro _; rfl
  | cons m M ih =>
    intro hnd
    rw [List.map_cons] at hnd
    obtain ⟨hm, hnd'⟩ := List.nodup_cons.mp hnd
    rw [List.map_cons, List.filterMap_cons]
    have hgroup_nil : groupOf M (keyOf m) = [] := by
      rw [groupOf, List.filter_eq_nil_iff]
      intro p hp
      simp only [decide_eq_true_eq]
      intro hpk
      exact hm (List.mem_map.mpr ⟨p, hp, hpk⟩)
    have hcons : groupOf (m :: M) (keyOf m) = [m] := by
      rw [groupOf, List.filter_cons]
      have h1 : (decide (keyOf m = keyOf m)) = true := by simp
      rw [h1]
      simp only [if_true]
      rw [show List.filter (fun p => decide (keyOf p = keyOf m)) M =
        groupOf M (keyOf m) from rfl, hgroup_nil]
    have hrep : repOf (m :: M) (keyOf m) = some m := by
      rw [repOf, hcons]
      rfl
    rw [hrep]
    show m :: (M.map keyOf).filterMap (repOf (m :: M)) = m :: M
    congr 1
    rw [filterMap_congr_mem (M.map keyOf) (repOf (m :: M)) (repOf M) ?_, ih hnd']
    intro k hk
    have hne : keyOf m ≠ k := fun he => hm (he ▸ hk)
    rw [repOf, repOf]
    have hsame : groupOf (m :: M) k = groupOf M k := by
      rw [groupOf, List.filter_cons]
      have h1 : (decide (keyOf m = k)) = false := by simp [hne]
      rw [h1]
      simp only [Bool.false_eq_true, if_false]
      rfl
    rw [hsame]

theorem countP_eq_nodup {α : Type} [DecidableEq α] :
    ∀ (l : List α), l.Nodup → ∀ k : α,
      l.countP (fun x => x = k) = if k ∈ l then 1 else 0 := by
  intro l
  induction l with
  | nil => intro _ k; simp
  | cons x xs ih =>
    intro hnd k
    obtain ⟨hx, hnd'⟩ := List.nodup_cons.mp hnd
    rw [List.countP_cons, ih hnd' k]
    by_cases hxk : x = k
    · rw [hxk] at hx
      simp [hxk, hx]
    · have hkx : ¬(k = x) := fun h => hxk h.symm
      simp [hxk, List.mem_cons, hkx]

/- ------------------------------------------------------------------
   Claim theorems
------------------------------------------------------------------ -/

/-- Claim C1: for every list of Products, merge selects per identity key
(brand, model, modelType, ngtdModelId) exactly one representative — an
element of the input list — and that representative is maximal in its
group under the (line-off date, year) ordering embedded in rank_for_merge,
in which a missing or unparsable line-off date ranks as the earliest
possible date (PyDate.min) and a missing or non-numeric year ranks as -1. -/
theorem merge_selects_latest_spec (L : List Product) :
    (∀ p ∈ merge_products_latest L, p ∈ L) ∧
    (∀ k : Key, (merge_products_latest L).countP (fun p => keyOf p = k) =
      if k ∈ L.map keyOf then 1 else 0) ∧
    (∀ p ∈ merge_products_latest L, ∀ q ∈ L, keyOf q = keyOf p →
      rankLtB (rank_for_merge p) (rank_for_merge q) = false) := by
  refine ⟨fun p hp => merge_mem_sub hp, ?_, ?_⟩
  · intro k
    have h1 : (merge_products_latest L).countP (fun p => keyOf p = k) =
        ((merge_products_latest L).map keyOf).countP (fun x => x = k) := by
      rw [List.countP_map]
      rfl
    rw [h1, merge_map_keyOf, countP_eq_nodup _ (nodup_dedupF _) k]
    by_cases hk : k ∈ L.map keyOf
    · rw [if_pos ((mem_dedupF _ _).mpr hk), if_pos hk]
    · rw [if_neg (fun hc => hk ((mem_dedupF _ _).mp hc)), if_neg hk]
  · intro p hp q hq hkey
    rw [merge_products_latest] at hp
    rcases List.mem_filterMap.mp hp with ⟨k, _, hrep⟩
    have hpk : keyOf p = k := keyOf_repOf hrep
    have hqg : q ∈ groupOf L k := mem_groupOf.mpr ⟨hq, by rw [hkey, hpk]⟩
    exact (repOf_spec hrep).2 q hqg

/-- Witness for C1: in the example group of the spec (dates 2019-01-01,
2021-06-15, missing; years 2019, 2021, 2023) the merge keeps the
2021-06-15 entry, and it is not outranked by the year-2023 entry with the
missing date. -/
theorem merge_selects_latest_spec_witness :
    prodB ∈ merge_products_latest prodsEx ∧ prodC ∈ prodsEx ∧
      keyOf prodC = keyOf prodB ∧
      rankLtB (rank_for_merge prodB) (rank_for_merge prodC) = false :=
  ⟨by decide, by decide, by decide,
    (merge_selects_latest_spec prodsEx).2.2 prodB (by decide) prodC (by decide) (by decide)⟩

/-- Claim C3: merge is idempotent — applying merge to the result of merge
returns the same list. -/
theorem merge_idempotent (L : List Product) :
    merge_products_latest (merge_products_latest L) = merge_products_latest L := by
  have hnd : ((merge_products_latest L).map keyOf).Nodup := by
    rw [merge_map_keyOf]
    exact nodup_dedupF _
  conv_lhs => rw [merge_products_latest]
  rw [dedupF_eq_self _ hnd]
  exact filterMap_repOf_self _ hnd

theorem safe_filename_ne_empty (s : String) : safe_filename s ≠ "" := by
  simp only [safe_filename]
  split
  · intro h
    exact absurd h (by decide)
  · next hne =>
    intro h
    apply hne
    have hl := congrArg String.data h
    simpa using hl

theorem amendedSanitize_eq_safe (s : String) : amendedSanitize s = safe_filename s := by
  simp only [amendedSanitize, claimSanitizeComponent, safe_filename]
  generalize (stripEnds (fun c => c = '_' || c = ' ')
      (s.data.map (fun c => if c.isAlphanum || c ∈ ['.', '_', '-', ' '] then c else '_'))).take 200 = l
  by_cases h : l = []
  · rw [h]
    decide
  · have h1 : ¬(String.mk l = "") := fun hc => h (congrArg String.data hc)
    have h2 : ¬(l.isEmpty = true) := by simp [h]
    rw [if_neg h1, if_neg h2]

/-- Claim C2, counterexample: the claim says a component that sanitizes to
empty is dropped, but brand "/" sanitizes to empty and the safe_filename
of the source turns it into the literal "manual" instead of dropping it,
so the produced name differs from the name the claim describes at this input. -/
theorem make_named_pdf_claim_counterexample :
    make_named_pdf "/" "RAV4" "X" (some "2024") "OM1" = "manual.RAV4.X.2024.OM1.pdf" ∧
    claim_named_pdf "/" "RAV4" "X" (some "2024") "OM1" = "RAV4.X.2024.OM1.pdf" ∧
    make_named_pdf "/" "RAV4" "X" (some "2024") "OM1" ≠
      claim_named_pdf "/" "RAV4" "X" (some "2024") "OM1" := by
  refine ⟨by decide, by decide, by decide⟩

/-- Claim C2 as amended: the filename builder drops the components that
are empty before sanitization (and a missing year); each surviving
component is sanitized (replace disallowed characters by underscores,
strip leading/trailing underscores and spaces, truncate to 200) and a
component whose sanitization is empty contributes the literal "manual";
the results are joined with dots, spaces become underscores and ".pdf" is
appended; when every component is empty the result is the literal
"manual.pdf". -/
theorem make_named_pdf_amended_spec (brand model modelType : String)
    (year : Option String) (partNumber : String) :
    make_named_pdf brand model modelType year partNumber =
      amended_named_pdf brand model modelType year partNumber := by
  simp only [make_named_pdf, amended_named_pdf]
  have hfilter : ([brand, model, modelType, year.getD "", partNumber].filter
      (fun x => x ≠ "" && safe_filename x ≠ "")) =
      ([brand, model, modelType, year.getD "", partNumber].filter (fun x => x ≠ "")) := by
    apply filter_congr_mem
    intro x _
    have hne := safe_filename_ne_empty x
    simp [hne]
  have hmap : ∀ l : List String, l.map safe_filename = l.map amendedSanitize := by
    intro l
    apply map_congr_mem
    intro x _
    exact (amendedSanitize_eq_safe x).symm
  rw [hfilter, hmap]
  generalize (([brand, model, modelType, year.getD "", partNumber].filter
      (fun x => x ≠ "")).map amendedSanitize) = comps
  by_cases h : comps.isEmpty
  · rw [if_pos h, if_pos h]
    decide
  · rw [if_neg h, if_neg h]

theorem mem_insDesc : ∀ {x n : Nat} {l : List Nat}, x ∈ insDesc n l ↔ x = n ∨ x ∈ l := by
  intro x n l
  induction l with
  | nil => simp [insDesc]
  | cons m l ih =>
    rw [insDesc]
    by_cases h1 : m < n
    · rw [if_pos h1]
      simp [List.mem_cons]
    · rw [if_neg h1]
      by_cases h2 : n = m
      · rw [if_pos h2]
        simp only [List.mem_cons]
        constructor
        · intro h
          exact Or.inr h
        · rintro (rfl | h)
          · exact Or.inl h2
          · exact h
      · rw [if_neg h2]
        simp only [List.mem_cons, ih]
        constructor
        · rintro (rfl | h | h)
          · exact Or.inr (Or.inl rfl)
          · exact Or.inl h
          · exact Or.inr (Or.inr h)
        · rintro (h | h | h)
          · exact Or.inr (Or.inl h)
          · exact Or.inl h
          · exact Or.inr (Or.inr h)

theorem pairwise_insDesc : ∀ {n : Nat} {l : List Nat},
    l.Pairwise (· > ·) → (insDesc n l).Pairwise (· > ·) := by
  intro n l
  induction l with
  | nil => intro _; simp [insDesc]
  | cons m l ih =>
    intro h
    obtain ⟨hm, hl⟩ := List.pairwise_cons.mp h
    rw [insDesc]
    by_cases h1 : m < n
    · rw [if_pos h1]
      refine List.pairwise_cons.mpr ⟨?_, h⟩
      intro x hx
      rcases List.mem_cons.mp hx with rfl | hx'
      · exact h1
      · exact Nat.lt_trans (hm x hx') h1
    · rw [if_neg h1]
      by_cases h2 : n = m
      · rw [if_pos h2]
        exact h
      · rw [if_neg h2]
        refine List.pairwise_cons.mpr ⟨?_, ih hl⟩
        intro x hx
        rcases mem_insDesc.mp hx with rfl | hx'
        · omega
        · exact hm x hx'

theorem sortDescDedup_pairwise (l : List Nat) :
    (sortDescDedup l).Pairwise (· > ·) := by
  rw [sortDescDedup]
  induction l with
  | nil => simp
  | cons x xs ih => exact pairwise_insDesc ih

theorem mem_sortDescDedup {x : Nat} (l : List Nat) :
    x ∈ sortDescDedup l ↔ x ∈ l := by
  rw [sortDescDedup]
  induction l with
  | nil => simp
  | cons y ys ih =>
    rw [List.foldr_cons, mem_insDesc, List.mem_cons, ih]

/-- Claim C4: for every chosen Product and every full product list, the
year resolver returns the distinct numeric years of the products sharing
the identity key of the chosen product, sorted strictly descending without
duplicates and capped at 12; when no such year exists it falls back to
the own year of the product as a singleton, or the empty list if that year is
not numeric. -/
theorem year_resolver_spec (prod : Product) (L : List Product) :
    ∃ ns : List Nat,
      pick_years_for_product prod L = ns.map (fun n => toString n) ∧
      ns.Pairwise (· > ·) ∧
      ns.length ≤ 12 ∧
      (siblingNumericYears prod L ≠ [] →
        ns = (sortDescDedup (siblingNumericYears prod L)).take 12 ∧
        (∀ n : Nat, n ∈ sortDescDedup (siblingNumericYears prod L) ↔
          n ∈ siblingNumericYears prod L)) ∧
      (siblingNumericYears prod L = [] → ns = (pyParseYearNat prod.year).toList) := by
  by_cases hsib : siblingNumericYears prod L = []
  · refine ⟨(pyParseYearNat prod.year).toList, ?_, ?_, ?_,
      fun h => absurd hsib h, fun _ => rfl⟩
    · rw [pick_years_for_product]
      simp only [USE_SIBLING_YEARS, if_true]
      have h1 : years_for_same_product prod L 12 = [] := by
        rw [years_for_same_product, hsib]
        rfl
      rw [h1]
      simp only [List.isEmpty_nil, if_true]
      rw [year_from_prod]
      cases pyParseYearNat prod.year <;> rfl
    · cases pyParseYearNat prod.year <;> simp
    · cases pyParseYearNat prod.year <;> simp
  · refine ⟨(sortDescDedup (siblingNumericYears prod L)).take 12, ?_, ?_, ?_,
      fun _ => ⟨rfl, fun n => mem_sortDescDedup _⟩, fun h => absurd h hsib⟩
    · rw [pick_years_for_product]
      simp only [USE_SIBLING_YEARS, if_true]
      have hs : sortDescDedup (siblingNumericYears prod L) ≠ [] := by
        rcases List.exists_mem_of_ne_nil _ hsib with ⟨x, hx⟩
        exact List.ne_nil_of_mem ((mem_sortDescDedup _).mpr hx)
      have hne : ¬(years_for_same_product prod L 12).isEmpty := by
        rw [years_for_same_product]
        rcases hsort : sortDescDedup (siblingNumericYears prod L) with _ | ⟨a, l⟩
        · exact absurd hsort hs
        · simp
      rw [if_neg hne]
      rw [years_for_same_product]
    · exact (sortDescDedup_pairwise _).sublist (List.take_sublist _ _)
    · simp

/-- Witness for C4: on the example group the resolver returns
["2023", "2021", "2019"], and the resolver theorem instantiates there. -/
theorem year_resolver_spec_witness :
    pick_years_for_product prodB prodsEx = ["2023", "2021", "2019"] ∧
    ∃ ns : List Nat,
      pick_years_for_product prodB prodsEx = ns.map (fun n => toString n) ∧
      ns.Pairwise (· > ·) ∧
      ns.length ≤ 12 ∧
      (siblingNumericYears prodB prodsEx ≠ [] →
        ns = (sortDescDedup (siblingNumericYears prodB prodsEx)).take 12 ∧
        (∀ n : Nat, n ∈ sortDescDedup (siblingNumericYears prodB prodsEx) ↔
          n ∈ siblingNumericYears prodB prodsEx)) ∧
      (siblingNumericYears prodB prodsEx = [] →
        ns = (pyParseYearNat prodB.year).toList) :=
  ⟨by decide, year_resolver_spec prodB prodsEx⟩

/-- Claim C5: the selector keeps exactly the publications whose type is
"OM" and whose language is a string starting with "en" case-insensitively
(the enOmFilterB predicate); it returns none when no candidate exists and
otherwise a candidate publication whose date portion of the line-off date
is not lexicographically below that of any other candidate, i.e. a newest
English Owners Manual (OM).  The hypothesis confines the statement to
publication lists whose line-off dates are strings or falsy, the domain
on which the norm_date of the source does not raise. -/
theorem om_selector_spec (pubs : List PubRecord)
    (hd : ∀ p ∈ pubs, strOrFalsyB p.lineOffDate = true) :
    (pubs.filter enOmFilterB = [] → pick_latest_en_om pubs = none) ∧
    (pubs.filter enOmFilterB ≠ [] →
      ∃ p, pick_latest_en_om pubs = some p ∧ p ∈ pubs ∧ enOmFilterB p = true ∧
        ∀ q ∈ pubs, enOmFilterB q = true →
          strLtB (normDateJ p.lineOffDate) (normDateJ q.lineOffDate) = false) := by
  constructor
  · intro h
    rw [pick_latest_en_om, h]
  · intro h
    rw [pick_latest_en_om]
    rcases hf : pubs.filter enOmFilterB with _ | ⟨g, gs⟩
    · exact absurd hf h
    · refine ⟨pyMaxBy strLtB (fun p => normDateJ p.lineOffDate) g gs, rfl, ?_, ?_, ?_⟩
      · have hm : pyMaxBy strLtB (fun p => normDateJ p.lineOffDate) g gs ∈ g :: gs :=
          pyMaxBy_mem _ _ g gs
        rw [← hf] at hm
        exact (List.mem_filter.mp hm).1
      · have hm : pyMaxBy strLtB (fun p => normDateJ p.lineOffDate) g gs ∈ g :: gs :=
          pyMaxBy_mem _ _ g gs
        rw [← hf] at hm
        exact (List.mem_filter.mp hm).2
      · intro q hq hqf
        have hqmem : q ∈ g :: gs := by
          rw [← hf]
          exact List.mem_filter.mpr ⟨hq, hqf⟩
        exact pyMaxBy_not_lt strLtB (fun p => normDateJ p.lineOffDate)
          strLtB_irrefl (fun hab hbc => strLtB_trans hab hbc)
          (fun hab hbc => strLtB_of_lt_of_not_lt hab hbc) g gs q hqmem

/-- Witness for C5: among two English OMs dated 2020-01-01 and 2022-03-01
and a French SM, the selector is defined, picks pubOM2022, and pubOM2022
is not outdated by the 2020 one. -/
theorem om_selector_spec_witness :
    pick_latest_en_om pubsEx = some pubOM2022 ∧
    ∃ p, pick_latest_en_om pubsEx = some p ∧ p ∈ pubsEx ∧ enOmFilterB p = true ∧
      ∀ q ∈ pubsEx, enOmFilterB q = true →
        strLtB (normDateJ p.lineOffDate) (normDateJ q.lineOffDate) = false :=
  ⟨by decide, (om_selector_spec pubsEx (by decide)).2 (by decide)⟩

theorem countP_congr_mem {α : Type} :
    ∀ (l : List α) (p q : α → Bool), (∀ x ∈ l, p x = q x) →
      l.countP p = l.countP q := by
  intro l
  induction l with
  | nil => intro p q _; rfl
  | cons x xs ih =>
    intro p q h
    rw [List.countP_cons, List.countP_cons, h x (List.mem_cons_self _ _),
      ih p q (fun y hy => h y (List.mem_cons_of_mem _ hy))]

theorem dedupStep_invariant (processed : List PubRecord)
    (m : List (Json × PubRecord)) (x : PubRecord)
    (hnd : (m.map Prod.fst).Nodup)
    (hinv : ∀ kv ∈ m, kv.2.partNumber = kv.1 ∧ jTruthy kv.1 = true ∧
      (processed.filter (fun p => p.partNumber = kv.1)).getLast? = some kv.2) :
    ((dedupStep m x).map Prod.fst).Nodup ∧
    ∀ kv ∈ dedupStep m x, kv.2.partNumber = kv.1 ∧ jTruthy kv.1 = true ∧
      ((processed ++ [x]).filter (fun p => p.partNumber = kv.1)).getLast? = some kv.2 := by
  rw [dedupStep]
  by_cases ht : jTruthy x.partNumber = true
  · rw [if_pos ht, dictUpsert]
    by_cases hpres : m.any (fun kv => kv.1 = x.partNumber) = true
    · rw [if_pos hpres]
      constructor
      · have hfst : (m.map (fun kv => if kv.1 = x.partNumber then (x.partNumber, x) else kv)).map
            Prod.fst = m.map Prod.fst := by
          rw [List.map_map]
          apply map_congr_mem
          intro kv _
          by_cases hk : kv.1 = x.partNumber
          · simp [hk]
          · simp [hk]
        rw [hfst]
        exact hnd
      · intro kv hkv
        rcases List.mem_map.mp hkv with ⟨kv0, hkv0, rfl⟩
        by_cases hk : kv0.1 = x.partNumber
        · rw [if_pos hk]
          refine ⟨rfl, ht, ?_⟩
          rw [List.filter_append]
          have hx1 : List.filter (fun p => p.partNumber = x.partNumber) [x] = [x] := by
            simp
          rw [hx1, List.getLast?_concat]
        · rw [if_neg hk]
          obtain ⟨h1, h2, h3⟩ := hinv kv0 hkv0
          refine ⟨h1, h2, ?_⟩
          have hne : ¬(x.partNumber = kv0.1) := fun he => hk he.symm
          rw [List.filter_append]
          have hx0 : List.filter (fun p => p.partNumber = kv0.1) [x] = [] := by
            simp [hne]
          rw [hx0, List.append_nil]
          exact h3
    · rw [if_neg hpres]
      have hnotin : ∀ kv ∈ m, kv.1 ≠ x.partNumber := by
        intro kv hkv he
        exact hpres (List.any_eq_true.mpr ⟨kv, hkv, by simp [he]⟩)
      constructor
      · rw [List.map_append]
        rw [List.nodup_append]
        refine ⟨hnd, by simp, ?_⟩
        intro a ha hb
        simp only [List.map_cons, List.map_nil, List.mem_singleton] at hb
        rcases List.mem_map.mp ha with ⟨kv, hkv, rfl⟩
        exact hnotin kv hkv hb
      · intro kv hkv
        rcases List.mem_append.mp hkv with hkv' | hkv'
        · obtain ⟨h1, h2, h3⟩ := hinv kv hkv'
          refine ⟨h1, h2, ?_⟩
          have hne : ¬(x.partNumber = kv.1) := fun he => hnotin kv hkv' (by rw [he])
          rw [List.filter_append]
          have hx0 : List.filter (fun p => p.partNumber = kv.1) [x] = [] := by
            simp [hne]
          rw [hx0, List.append_nil]
          exact h3
        · have hkv'' : kv = (x.partNumber, x) := by simpa using hkv'
          rw [hkv'']
          refine ⟨rfl, ht, ?_⟩
          rw [List.filter_append]
          have hx1 : List.filter (fun p => p.partNumber = x.partNumber) [x] = [x] := by
            simp
          rw [hx1, List.getLast?_concat]
  · rw [if_neg ht]
    refine ⟨hnd, ?_⟩
    intro kv hkv
    obtain ⟨h1, h2, h3⟩ := hinv kv hkv
    refine ⟨h1, h2, ?_⟩
    have hne : ¬(x.partNumber = kv.1) := fun he => ht (by rw [he]; exact h2)
    rw [List.filter_append]
    have hx0 : List.filter (fun p => p.partNumber = kv.1) [x] = [] := by
      simp [hne]
    rw [hx0, List.append_nil]
    exact h3

theorem dedup_foldl_invariant :
    ∀ (l : List PubRecord) (processed : List PubRecord) (m : List (Json × PubRecord)),
      (m.map Prod.fst).Nodup →
      (∀ kv ∈ m, kv.2.partNumber = kv.1 ∧ jTruthy kv.1 = true ∧
        (processed.filter (fun p => p.partNumber = kv.1)).getLast? = some kv.2) →
      ((l.foldl dedupStep m).map Prod.fst).Nodup ∧
      ∀ kv ∈ l.foldl dedupStep m, kv.2.partNumber = kv.1 ∧ jTruthy kv.1 = true ∧
        ((processed ++ l).filter (fun p => p.partNumber = kv.1)).getLast? = some kv.2 := by
  intro l
  induction l with
  | nil =>
    intro processed m hnd hinv
    rw [List.foldl_nil]
    refine ⟨hnd, ?_⟩
    intro kv hkv
    rw [List.append_nil]
    exact hinv kv hkv
  | cons x xs ih =>
    intro processed m hnd hinv
    rw [List.foldl_cons]
    obtain ⟨hnd', hinv'⟩ := dedupStep_invariant processed m x hnd hinv
    have := ih (processed ++ [x]) (dedupStep m x) hnd' hinv'
    rw [List.append_assoc] at this
    simpa using this

theorem collect_invariant (j : Json) :
    (((walkRecords j).foldl dedupStep []).map Prod.fst).Nodup ∧
    ∀ kv ∈ (walkRecords j).foldl dedupStep [],
      kv.2.partNumber = kv.1 ∧ jTruthy kv.1 = true ∧
      ((walkRecords j).filter (fun p => p.partNumber = kv.1)).getLast? = some kv.2 := by
  have h := dedup_foldl_invariant (walkRecords j) [] [] (by simp) (by simp)
  simpa using h

/-- Claim C6: for every JSON hydration payload, the parser deduplicates
the walked records by part number with the last-walked occurrence
winning: every returned record is the last record of the walk that
carries its part number, and the output has at most one record per part
number. -/
theorem collect_dedup_spec (j : Json) :
    (∀ pn : Json, (collect_publications j).countP (fun r => r.partNumber = pn) ≤ 1) ∧
    (∀ r ∈ collect_publications j,
      ((walkRecords j).filter (fun p => p.partNumber = r.partNumber)).getLast? = some r) := by
  obtain ⟨hnd, hinv⟩ := collect_invariant j
  constructor
  · intro pn
    rw [collect_publications, List.countP_map]
    have hcong : ((walkRecords j).foldl dedupStep []).countP
        ((fun r : PubRecord => decide (r.partNumber = pn)) ∘ Prod.snd) =
        ((walkRecords j).foldl dedupStep []).countP (fun kv => decide (kv.1 = pn)) := by
      apply countP_congr_mem
      intro kv hkv
      obtain ⟨h1, _, _⟩ := hinv kv hkv
      simp only [Function.comp_apply, h1]
    rw [hcong]
    have hback : ((walkRecords j).foldl dedupStep []).countP (fun kv => decide (kv.1 = pn)) =
        (((walkRecords j).foldl dedupStep []).map Prod.fst).countP
          (fun x => decide (x = pn)) := by
      rw [List.countP_map]
      rfl
    rw [hback, countP_eq_nodup _ hnd pn]
    split
    · exact Nat.le_refl 1
    · exact Nat.zero_le 1
  · intro r hr
    rw [collect_publications] at hr
    rcases List.mem_map.mp hr with ⟨kv, hkv, rfl⟩
    obtain ⟨h1, _, h3⟩ := hinv kv hkv
    rw [h1]
    exact h3

/-- Witness for C6: in the payload jEx two nodes share part number "P1"
with titles "T1" and "T2"; the returned record is the last-walked one,
carrying "T2". -/
theorem collect_dedup_spec_witness :
    collect_publications jEx = [recT2] ∧
    ((walkRecords jEx).filter (fun p => p.partNumber = recT2.partNumber)).getLast? =
      some recT2 :=
  ⟨by decide, (collect_dedup_spec jEx).2 recT2 (by decide)⟩

/-- Claim C10: every record returned by the parser has a truthy
partNumber; a walked record whose partNumber is falsy (None, empty
string, zero, ...) is discarded by the deduplication step and never
appears in the output. -/
theorem collect_truthy_spec (j : Json) :
    (∀ r ∈ collect_publications j, jTruthy r.partNumber = true) ∧
    (∀ r ∈ walkRecords j, jTruthy r.partNumber = false →
      r ∉ collect_publications j) := by
  obtain ⟨_, hinv⟩ := collect_invariant j
  have htruthy : ∀ r ∈ collect_publications j, jTruthy r.partNumber = true := by
    intro r hr
    rw [collect_publications] at hr
    rcases List.mem_map.mp hr with ⟨kv, hkv, rfl⟩
    obtain ⟨h1, h2, _⟩ := hinv kv hkv
    rw [h1]
    exact h2
  refine ⟨htruthy, ?_⟩
  intro r _ hf hmem
  rw [htruthy r hmem] at hf
  exact Bool.noConfusion hf

/-- Witness for C10: the record with the empty partNumber is walked in
jEx but absent from the output of the parser. -/
theorem collect_truthy_spec_witness :
    recEmptyPn ∈ walkRecords jEx ∧ recEmptyPn ∉ collect_publications jEx :=
  ⟨by decide, (collect_truthy_spec jEx).2 recEmptyPn (by decide) (by decide)⟩

/-- Claim C7, counterexample: the claim says any non-2xx status other
than 400/404/500 propagates as an exception, but raise_for_status of the requests
library only raises for statuses 400-599; at status 304 (a
non-2xx status) the source raises nothing and proceeds to return the url
field of the body. -/
theorem pdf_link_counterexample :
    pdf_link_required pubEx7 = true ∧
    get_pdf_link pubEx7 304 [("url", Json.str "u")] = Except.ok (some (Json.str "u")) ∧
    get_pdf_link pubEx7 304 [("url", Json.str "u")] ≠ Except.error () :=
  ⟨by decide, rfl, fun h => Except.noConfusion h⟩

/-- Claim C7 as amended: with any of partNumber, modelType or the
date-truncated line-off date missing or empty (falsy), the resolver
returns no link and the result does not depend on the response, since no
request is issued; with the required fields present, statuses 400, 404
and 500 give no link; the remaining statuses in 400-599 propagate as an
exception; every status outside 400-599 (including non-2xx statuses such
as 1xx and 3xx, which raise_for_status does not raise on) yields the url
field of the JSON body, an absent field being treated as no link.  The
hypothesis confines the statement to publications whose lineOffDate is a
string or falsy: on a truthy non-string value the source raises
AttributeError at the date truncation, before the missing-fields gate,
a case normDateJ does not model. -/
theorem pdf_link_spec (pub : PubRecord) (st : Nat) (body : List (String × Json))
    (hln : strOrFalsyB pub.lineOffDate = true) :
    (pdf_link_required pub = false → get_pdf_link pub st body = Except.ok none) ∧
    (pdf_link_required pub = true →
      ((st = 400 ∨ st = 404 ∨ st = 500) → get_pdf_link pub st body = Except.ok none) ∧
      ((400 ≤ st ∧ st ≤ 599 ∧ st ≠ 400 ∧ st ≠ 404 ∧ st ≠ 500) →
        get_pdf_link pub st body = Except.error ()) ∧
      ((st < 400 ∨ 600 ≤ st) → get_pdf_link pub st body = Except.ok (urlField body))) := by
  constructor
  · intro h
    simp [get_pdf_link, h]
  · intro h
    refine ⟨?_, ?_, ?_⟩
    · intro hs
      rcases hs with rfl | rfl | rfl <;> simp [get_pdf_link, h]
    · rintro ⟨h1, h2, h3, h4, h5⟩
      rw [get_pdf_link, if_neg (by simp [h]), if_neg (by omega), if_pos ⟨h1, h2⟩]
    · intro hs
      rw [get_pdf_link, if_neg (by simp [h]), if_neg (by omega), if_neg (by omega)]

/-- Witness for the amended theorem of C7: with all required fields present,
status 404 yields no link and status 503 raises. -/
theorem pdf_link_spec_witness :
    strOrFalsyB pubEx7.lineOffDate = true ∧
    pdf_link_required pubEx7 = true ∧
    get_pdf_link pubEx7 404 [] = Except.ok none ∧
    get_pdf_link pubEx7 503 [] = Except.error () :=
  ⟨by decide, by decide,
    ((pdf_link_spec pubEx7 404 [] (by decide)).2 (by decide)).1 (Or.inr (Or.inl rfl)),
    (((pdf_link_spec pubEx7 503 [] (by decide)).2 (by decide)).2).1 (by omega)⟩

/-- Claim C8: download is idempotent.  The target path is a deterministic
function of the product and publication (download_target); when it
already exists in the output directory the call performs no network
transfer and returns the existing path, so two successive calls on the
same inputs perform exactly one transfer.  The hypotheses confine the
statement to publications whose modelType, partNumber and lineOffDate
fields are strings or falsy, the domain on which the string-coercion
idioms of the source do not raise. -/
theorem download_idempotent_spec (fs : List String) (url : String) (prod : Product)
    (pub : PubRecord) (h1 : strOrFalsyB pub.modelType = true)
    (h2 : strOrFalsyB pub.partNumber = true) (h3 : strOrFalsyB pub.lineOffDate = true) :
    (download_target prod pub ∈ fs →
      download_pdf fs url prod pub = (download_target prod pub, fs, 0)) ∧
    (download_target prod pub ∉ fs →
      download_pdf fs url prod pub =
        (download_target prod pub, download_target prod pub :: fs, 1) ∧
      download_pdf (download_target prod pub :: fs) url prod pub =
        (download_target prod pub, download_target prod pub :: fs, 0)) := by
  constructor
  · intro hmem
    simp only [download_pdf]
    rw [if_pos hmem]
  · intro hnot
    constructor
    · simp only [download_pdf]
      rw [if_neg hnot]
    · simp only [download_pdf]
      rw [if_pos (List.mem_cons_self _ _)]

/-- Witness for C8: starting from an empty output directory, the first
call downloads (one transfer) and the second call returns the existing
path with no transfer. -/
theorem download_idempotent_spec_witness :
    download_pdf [] "u" prodB pubEx7 =
      (download_target prodB pubEx7, download_target prodB pubEx7 :: [], 1) ∧
    download_pdf (download_target prodB pubEx7 :: []) "u" prodB pubEx7 =
      (download_target prodB pubEx7, download_target prodB pubEx7 :: [], 0) :=
  (download_idempotent_spec [] "u" prodB pubEx7 (by decide) (by decide) (by decide)).2
    (by decide)

/-- Claim C9: the tabular-query tool rejects any statement that, after
stripping surrounding whitespace and trailing semicolons, does not start
with "select" case-insensitively (a missing or blank query falls in this
class, since the empty string does not start with "select"): it returns
an error outcome and never reaches the executed outcome, so nothing runs
against the database. -/
theorem sql_gate_spec (query : Option String) (limit : Option Int)
    (h : query = none ∨ ∃ s, query = some s ∧
      startsWithList (pyLowerAscii (rstripSemis (pyStripWs s))).data "select".data = false) :
    (∃ msg, sql_select_forward query limit = SqlOutcome.err msg) ∧
    ∀ q lim, sql_select_forward query limit ≠ SqlOutcome.executed q lim := by
  have herr : ∃ msg, sql_select_forward query limit = SqlOutcome.err msg := by
    rcases h with rfl | ⟨s, rfl, hsel⟩
    · exact ⟨_, rfl⟩
    · simp only [sql_select_forward]
      by_cases hempty : (s = "" || pyStripWs s = "") = true
      · rw [if_pos hempty]
        exact ⟨_, rfl⟩
      · rw [if_neg hempty, hsel]
        rw [if_pos (by simp)]
        exact ⟨_, rfl⟩
  refine ⟨herr, ?_⟩
  rcases herr with ⟨msg, hmsg⟩
  intro q lim hc
  rw [hmsg] at hc
  exact SqlOutcome.noConfusion hc

/-- Witness for C9: a DROP statement is rejected and never executed. -/
theorem sql_gate_spec_witness :
    (∃ msg, sql_select_forward (some "DROP TABLE users;") (some 5) = SqlOutcome.err msg) ∧
    ∀ q lim, sql_select_forward (some "DROP TABLE users;") (some 5) ≠
      SqlOutcome.executed q lim :=
  sql_gate_spec (some "DROP TABLE users;") (some 5)
    (Or.inr ⟨"DROP TABLE users;", rfl, by decide⟩)
